import Mathlib

/-!
Verification of the NL-to-SQL pipeline of `src/ypo.py`.

Python strings are modelled as `List Char`; `str.upper` is modelled by
`Char.toUpper` (ASCII case mapping) and the regex class `\s` / `str.strip`
whitespace by the six ASCII whitespace characters.  The two `re.search`
calls of `extract_sql` are modelled by recursive scanning functions that
reproduce the leftmost-match and backtracking behaviour of the concrete
patterns used in the source.  The warehouse connection and the hosted
completion model are opaque collaborators and are passed as function
parameters.
-/

set_option maxRecDepth 10000

/-- The six ASCII whitespace characters recognised by the regex class and by
trimming in the source (space, tab, newline, carriage return, vertical tab,
form feed). -/
def isPySpace (c : Char) : Bool :=
  c == ' ' || c == '\t' || c == '\n' || c == '\r' || c == '\x0b' || c == '\x0c'

/-- Python `str.strip()`: remove leading and trailing whitespace. -/
def pyStrip (s : List Char) : List Char :=
  ((s.dropWhile isPySpace).reverse.dropWhile isPySpace).reverse

/-- Python `str.upper()` restricted to the ASCII case mapping. -/
def strUpper (s : List Char) : List Char :=
  s.map Char.toUpper

/-- `beginsWith pat s` holds when `pat` occurs at the start of `s`. -/
def beginsWith : List Char → List Char → Bool
  | [], _ => true
  | _ :: _, [] => false
  | p :: ps, c :: cs => p == c && beginsWith ps cs

/-- `hasSub pat s` is Python substring containment `pat in s`. -/
def hasSub (pat : List Char) : List Char → Bool
  | [] => beginsWith pat []
  | c :: cs => beginsWith pat (c :: cs) || hasSub pat cs

/-- Case-insensitive version of `beginsWith` (both sides uppercased), as the
`re.IGNORECASE` flag produces for literal pattern text. -/
def ciBegins (pat s : List Char) : Bool :=
  beginsWith (strUpper pat) (strUpper s)

/-- The backquote character (code 96). -/
def bq : Char := Char.ofNat 96

/-- The three-backquote fence delimiter of the markdown code-block pattern. -/
def fenceMark : List Char := [bq, bq, bq]

/-- The optional lowercase tag `sql` of the code-block pattern. -/
def sqlWord : List Char := ['s', 'q', 'l']

/-- The literal `SELECT` of the trailing-statement pattern. -/
def selectWord : List Char := ['S', 'E', 'L', 'E', 'C', 'T']

/-- Leftmost-match search for the opening of a complete fenced block: the
first position carrying a fence delimiter that is followed, beyond the
delimiter, by another fence delimiter.  Returns the remainder of the string
after the opening delimiter. -/
def findFence : List Char → Option (List Char)
  | [] => none
  | c :: cs =>
    if beginsWith fenceMark (c :: cs) && hasSub fenceMark ((c :: cs).drop 3) then
      some ((c :: cs).drop 3)
    else
      findFence cs

/-- Content up to (excluding) the first fence delimiter; the lazy group
`(.*?)` followed by the closing fence. -/
def takeUntilFence : List Char → List Char
  | [] => []
  | c :: cs => if beginsWith fenceMark (c :: cs) then [] else c :: takeUntilFence cs

/-- Rule 1 of `extract_sql`:
`re.search(r"(three backquotes)(?:sql)?\s*(.*?)(three backquotes)", response, re.DOTALL | re.IGNORECASE)`
returning `group(1).strip()` when a match exists.  The greedy optional tag is
taken exactly when taking it still leaves a closing fence; `\s*` then absorbs
the maximal whitespace run in front of the lazily captured content. -/
def fenceExtract (s : List Char) : Option (List Char) :=
  match findFence s with
  | none => none
  | some r =>
    let r2 := if ciBegins sqlWord r && hasSub fenceMark (r.drop 3) then r.drop 3 else r
    some (pyStrip (takeUntilFence (r2.dropWhile isPySpace)))

/-- Whether the trailing-SELECT pattern `(SELECT\s+.*?;?)\s*$` can match at
the head of `s`: a case-insensitive `SELECT` followed by at least one
whitespace character.  (With `re.DOTALL`, the lazy tail and the optional
semicolon always extend to the end of the string once this head matches.) -/
def selectHere (s : List Char) : Bool :=
  ciBegins selectWord s &&
    match s.drop 6 with
    | [] => false
    | c :: _ => isPySpace c

/-- Leftmost-match search for the trailing-SELECT pattern; returns the suffix
of the input starting at the match. -/
def findSelect : List Char → Option (List Char)
  | [] => none
  | c :: cs => if selectHere (c :: cs) then some (c :: cs) else findSelect cs

/-- `extract_sql` from the source: fenced code block first, then a trailing
SELECT statement, then the whole trimmed response as fallback. -/
def extract_sql (response : List Char) : List Char :=
  match fenceExtract response with
  | some sql => sql
  | none =>
    match findSelect response with
    | some tail => pyStrip tail
    | none => pyStrip response

/-- The forbidden-token list of the safety check (note the trailing space in
the final token). -/
def forbiddenTokens : List (List Char) :=
  [ "INSERT".toList, "UPDATE".toList, "DELETE".toList,
    "DROP".toList, "ALTER".toList, "CREATE ".toList ]

/-- `forbidden = any(x in upper_sql for x in [...])` from the source. -/
def forbidden (sqlText : List Char) : Bool :=
  forbiddenTokens.any fun x => hasSub x (strUpper sqlText)

/-- `GateDecision.allowed`: the statement passes the safety check. -/
def gateAllowed (sqlText : List Char) : Bool :=
  !forbidden sqlText

/-- `s.replace("'", "''")` from `generate_sql`. -/
def escapeQuotes : List Char → List Char
  | [] => []
  | c :: cs => if c = '\'' then '\'' :: '\'' :: escapeQuotes cs else c :: escapeQuotes cs

/-- Reversal of the doubling, left to right: each doubled quote pair becomes a
single quote.  This is the un-escaping operation named by the round-trip
property; it is not part of the source. -/
def unescapeQuotes : List Char → List Char
  | [] => []
  | [c] => [c]
  | c :: d :: cs =>
    if c = '\'' ∧ d = '\'' then '\'' :: unescapeQuotes cs
    else c :: unescapeQuotes (d :: cs)

/-- The prompt string assembled in `generate_sql` (the Python source writes
`\\n`, i.e. a literal backslash followed by `n`). -/
def promptText (escapedSchema escapedQuery : List Char) : List Char :=
  ("You are a SQL generator. Output ONLY the SQL query, nothing else. " ++
   "No explanations, no markdown, no comments - just the raw SQL. " ++
   "Database schema (table: columns):").toList ++
  escapedSchema ++ "\\n\\n".toList ++
  ("Use fully qualified names like YPO.YPO_DATA.TABLE_NAME. " ++
   "Use the EXACT column names shown above. " ++
   "Only SELECT queries allowed.").toList ++
  "\\n\\nRequest: ".toList ++ escapedQuery

/-- `generate_sql` from the source; the Cortex completion call behind
`conn.query` is the opaque parameter `complete` from prompt to raw model
output. -/
def generate_sql (nl_query schema_desc : List Char)
    (complete : List Char → List Char) : List Char :=
  let escaped_query := escapeQuotes nl_query
  let escaped_schema := escapeQuotes schema_desc
  let prompt := promptText escaped_schema escaped_query
  extract_sql (complete prompt)

/-- Terminal result of one user submission: either the rejection error shown
by `st.error`, or the vetted statement handed to `conn.query`. -/
inductive SubmissionOutcome where
  | rejected (errorMsg : List Char)
  | executed (sql : List Char)
deriving DecidableEq

/-- The error message printed when the safety check fires. -/
def writeAbortMsg : List Char :=
  "Generated SQL contains write operations. Aborting.".toList

/-- The guarded body of `if user_query:` — generate, gate, and either abort
with the error message or submit the statement to the warehouse. -/
def runSubmission (user_query schema_description : List Char)
    (complete : List Char → List Char) : SubmissionOutcome :=
  let sql_text := generate_sql user_query schema_description complete
  if forbidden sql_text then SubmissionOutcome.rejected writeAbortMsg
  else SubmissionOutcome.executed sql_text

/-- One row of the column-metadata query: table name, column name, data
type. -/
structure ColumnRow where
  table : List Char
  column : List Char
  dtype : List Char

/-- The schema-description loop of the source: for each table, a line
`"\n- TABLE: COL1 (TYPE1), COL2 (TYPE2), ..."` appended to the
accumulator. -/
def buildSchemaDescription (tables : List (List Char)) (columns : List ColumnRow) :
    List Char :=
  tables.foldl
    (fun acc table =>
      let table_cols := columns.filter fun r => r.table == table
      let cols_str :=
        List.intercalate ", ".toList
          (table_cols.map fun r => r.column ++ " (".toList ++ r.dtype ++ [')'])
      acc ++ "\n- ".toList ++ table ++ ": ".toList ++ cols_str)
    []

/-- The `try/except` around the schema fetch: on success the table list and
the flattened description, on any exception the empty list and the empty
description. -/
def appSchemaState
    (fetch : Except (List Char) (List (List Char) × List ColumnRow)) :
    List (List Char) × List Char :=
  match fetch with
  | Except.ok (tables, columns) => (tables, buildSchemaDescription tables columns)
  | Except.error _ => ([], [])

/-- The whole script run for one rendered page: schema state (with its
degrade-on-failure policy), then the `if user_query:` submission block, which
is skipped when the input is empty (falsy). -/
def appRun (fetch : Except (List Char) (List (List Char) × List ColumnRow))
    (user_query : List Char) (complete : List Char → List Char) :
    List (List Char) × List Char × Option SubmissionOutcome :=
  let st := appSchemaState fetch
  let outcome :=
    if user_query = [] then none
    else some (runSubmission user_query st.2 complete)
  (st.1, st.2, outcome)

/-! ### Basic lemmas about the string primitives -/

theorem beginsWith_iff (pat s : List Char) :
    beginsWith pat s = true ↔ ∃ r, s = pat ++ r := by
  induction pat generalizing s with
  | nil =>
    simp [beginsWith]
  | cons p ps ih =>
    cases s with
    | nil =>
      simp [beginsWith]
    | cons c cs =>
      rw [beginsWith, Bool.and_eq_true, beq_iff_eq, ih]
      constructor
      · rintro ⟨rfl, r, rfl⟩
        exact ⟨r, rfl⟩
      · rintro ⟨r, hr⟩
        rw [List.cons_append] at hr
        injection hr with h1 h2
        exact ⟨h1.symm, r, h2⟩

theorem hasSub_iff (pat s : List Char) :
    hasSub pat s = true ↔ ∃ l r, s = l ++ pat ++ r := by
  induction s with
  | nil =>
    rw [hasSub, beginsWith_iff]
    constructor
    · rintro ⟨r, hr⟩
      exact ⟨[], r, hr⟩
    · rintro ⟨l, r, hr⟩
      have h := hr.symm
      simp only [List.append_assoc, List.append_eq_nil] at h
      obtain ⟨-, hp, -⟩ := h
      subst hp
      exact ⟨[], rfl⟩
  | cons c cs ih =>
    rw [hasSub, Bool.or_eq_true, beginsWith_iff, ih]
    constructor
    · rintro (⟨r, hr⟩ | ⟨l, r, hr⟩)
      · exact ⟨[], r, hr⟩
      · exact ⟨c :: l, r, by simp [hr]⟩
    · rintro ⟨l, r, hr⟩
      cases l with
      | nil =>
        exact Or.inl ⟨r, by simpa using hr⟩
      | cons x l2 =>
        rw [List.cons_append] at hr
        injection hr with h1 h2
        exact Or.inr ⟨l2, r, h2⟩

theorem beginsWith_append_self (pat r : List Char) :
    beginsWith pat (pat ++ r) = true :=
  (beginsWith_iff ..).mpr ⟨r, rfl⟩

theorem beginsWith_fence_false {c : Char} (cs : List Char) (hc : c ≠ bq) :
    beginsWith fenceMark (c :: cs) = false := by
  have hbeq : (bq == c) = false := beq_eq_false_iff_ne.mpr (Ne.symm hc)
  simp [fenceMark, beginsWith, hbeq]

theorem dropWhile_append_of_all {p : Char → Bool} {a : List Char} (b : List Char)
    (h : ∀ c ∈ a, p c = true) :
    List.dropWhile p (a ++ b) = List.dropWhile p b := by
  induction a with
  | nil => rfl
  | cons x a2 ih =>
    rw [List.cons_append, List.dropWhile_cons, h x (by simp)]
    exact ih fun c hc => h c (by simp [hc])

theorem dropWhile_cons_of_neg {p : Char → Bool} {c : Char} (l : List Char)
    (h : p c = false) :
    List.dropWhile p (c :: l) = c :: l := by
  rw [List.dropWhile_cons, h]
  simp

theorem pyStrip_dropWhile (s : List Char) :
    pyStrip (s.dropWhile isPySpace) = pyStrip s := by
  rw [pyStrip, pyStrip, List.dropWhile_idempotent]

/-! ### The escaping round-trip -/

theorem escape_roundtrip (s : List Char) : unescapeQuotes (escapeQuotes s) = s := by
  induction s with
  | nil => rfl
  | cons c cs ih =>
    by_cases hc : c = '\''
    · subst hc
      rw [escapeQuotes, if_pos rfl]
      simp [unescapeQuotes, ih]
    · cases hcs : escapeQuotes cs with
      | nil =>
        have hnil : cs = [] := by
          cases cs with
          | nil => rfl
          | cons a as =>
            rw [escapeQuotes] at hcs
            split at hcs <;> simp at hcs
        subst hnil
        simp [escapeQuotes, unescapeQuotes, hc]
      | cons d ds =>
        have hcond : ¬(c = '\'' ∧ d = '\'') := fun h => hc h.1
        rw [escapeQuotes, if_neg hc, hcs]
        simp only [unescapeQuotes, if_neg hcond]
        rw [← hcs, ih]

/-! ### Fence-extraction lemmas -/

theorem findFence_cons_neg {c : Char} (cs : List Char) (hc : c ≠ bq) :
    findFence (c :: cs) = findFence cs := by
  rw [findFence, beginsWith_fence_false cs hc]
  simp

theorem findFence_skip {p : List Char} (r : List Char) (hp : bq ∉ p) :
    findFence (p ++ r) = findFence r := by
  induction p with
  | nil => rfl
  | cons c p2 ih =>
    have hc : c ≠ bq := fun h => hp (by rw [← h]; exact List.mem_cons_self c p2)
    rw [List.cons_append, findFence_cons_neg _ hc]
    exact ih fun h => hp (List.mem_cons_of_mem c h)

theorem findFence_at (rest : List Char) (hsub : hasSub fenceMark rest = true) :
    findFence (fenceMark ++ rest) = some rest := by
  have h1 : beginsWith fenceMark (bq :: bq :: bq :: rest) = true :=
    beginsWith_append_self fenceMark rest
  show findFence (bq :: bq :: bq :: rest) = some rest
  rw [findFence]
  simp [h1, hsub]

theorem takeUntilFence_append {x : List Char} (t : List Char) (hx : bq ∉ x) :
    takeUntilFence (x ++ fenceMark ++ t) = x := by
  induction x with
  | nil =>
    have h1 : beginsWith fenceMark (bq :: bq :: bq :: t) = true :=
      beginsWith_append_self fenceMark t
    show takeUntilFence (bq :: bq :: bq :: t) = []
    rw [takeUntilFence]
    simp [h1]
  | cons c x2 ih =>
    have hc : c ≠ bq := fun h => hx (by rw [← h]; exact List.mem_cons_self c x2)
    rw [List.cons_append, List.cons_append, takeUntilFence, beginsWith_fence_false _ hc]
    simp only [Bool.false_eq_true, if_false, List.cons.injEq, true_and]
    exact ih fun h => hx (List.mem_cons_of_mem c h)

theorem takeUntilFence_dropWhile {body : List Char} (u : List Char) (hb : bq ∉ body) :
    takeUntilFence (List.dropWhile isPySpace (body ++ fenceMark ++ u)) =
      List.dropWhile isPySpace body := by
  induction body with
  | nil =>
    have hbq : isPySpace bq = false := by decide
    have h1 : List.dropWhile isPySpace (bq :: ([bq, bq] ++ u)) = bq :: ([bq, bq] ++ u) :=
      dropWhile_cons_of_neg _ hbq
    rw [List.nil_append]
    show takeUntilFence (List.dropWhile isPySpace (bq :: ([bq, bq] ++ u))) = []
    rw [h1]
    exact @takeUntilFence_append [] u (by simp)
  | cons c b2 ih =>
    have hb2 : bq ∉ b2 := fun h => hb (List.mem_cons_of_mem c h)
    rw [List.cons_append, List.cons_append]
    by_cases hcs : isPySpace c = true
    · rw [List.dropWhile_cons, List.dropWhile_cons, hcs]
      simp only [if_true]
      exact ih hb2
    · have hcf : isPySpace c = false := by simpa using hcs
      have hc : c ≠ bq := fun h => hb (by rw [← h]; exact List.mem_cons_self c b2)
      rw [dropWhile_cons_of_neg _ hcf, dropWhile_cons_of_neg _ hcf,
        takeUntilFence, beginsWith_fence_false _ hc]
      simp only [Bool.false_eq_true, if_false, List.cons.injEq, true_and]
      exact takeUntilFence_append u hb2

theorem strUpper_append (a b : List Char) :
    strUpper (a ++ b) = strUpper a ++ strUpper b :=
  List.map_append ..

theorem ciBegins_sql_fence (body u : List Char) (h : ciBegins sqlWord body = false) :
    ciBegins sqlWord (body ++ fenceMark ++ u) = false := by
  match body with
  | [] =>
    have hbq : ('S' == Char.toUpper bq) = false := by decide
    simp [ciBegins, strUpper, sqlWord, fenceMark, beginsWith, hbq]
  | [a] =>
    have hbq : ('Q' == Char.toUpper bq) = false := by decide
    simp [ciBegins, strUpper, sqlWord, fenceMark, beginsWith, hbq]
  | [a, b] =>
    have hbq : ('L' == Char.toUpper bq) = false := by decide
    simp [ciBegins, strUpper, sqlWord, fenceMark, beginsWith, hbq]
  | a :: b :: c :: rest =>
    revert h
    simp [ciBegins, strUpper, sqlWord, beginsWith]

theorem fence_core (p tag body u : List Char)
    (hp : bq ∉ p) (hb : bq ∉ body)
    (htag : strUpper tag = ['S', 'Q', 'L'] ∨ tag = [])
    (htag2 : tag = [] → ciBegins sqlWord body = false) :
    extract_sql (p ++ fenceMark ++ tag ++ body ++ fenceMark ++ u) = pyStrip body := by
  have hassoc : p ++ fenceMark ++ tag ++ body ++ fenceMark ++ u
      = p ++ (fenceMark ++ (tag ++ (body ++ fenceMark ++ u))) := by
    simp [List.append_assoc]
  have hsubR : hasSub fenceMark (tag ++ (body ++ fenceMark ++ u)) = true := by
    refine (hasSub_iff ..).mpr ⟨tag ++ body, u, ?_⟩
    simp [List.append_assoc]
  have hff : findFence (p ++ fenceMark ++ tag ++ body ++ fenceMark ++ u)
      = some (tag ++ (body ++ fenceMark ++ u)) := by
    rw [hassoc, findFence_skip _ hp, findFence_at _ hsubR]
  have hsub3 : hasSub fenceMark (body ++ fenceMark ++ u) = true := by
    refine (hasSub_iff ..).mpr ⟨body, u, ?_⟩
    simp [List.append_assoc]
  have hcontent :
      pyStrip (takeUntilFence ((body ++ fenceMark ++ u).dropWhile isPySpace)) = pyStrip body := by
    rw [takeUntilFence_dropWhile u hb, pyStrip_dropWhile]
  rcases htag with hA | hB
  · have hlen : tag.length = 3 := by
      have := congrArg List.length hA
      simpa [strUpper] using this
    have hciB : ciBegins sqlWord (tag ++ (body ++ fenceMark ++ u)) = true := by
      rw [ciBegins, strUpper_append, hA]
      have hsq : strUpper sqlWord = ['S', 'Q', 'L'] := by decide
      rw [hsq]
      exact beginsWith_append_self ..
    have hdrop : (tag ++ (body ++ fenceMark ++ u)).drop 3 = body ++ fenceMark ++ u := by
      rw [← hlen]
      exact List.drop_left ..
    have hfe : fenceExtract (p ++ fenceMark ++ tag ++ body ++ fenceMark ++ u)
        = some (pyStrip body) := by
      simp only [fenceExtract, hff, hciB, hdrop, hsub3, Bool.and_self, if_true, hcontent]
    simp only [extract_sql, hfe]
  · subst hB
    have hciB : ciBegins sqlWord (body ++ fenceMark ++ u) = false :=
      ciBegins_sql_fence body u (htag2 rfl)
    have hfe : fenceExtract (p ++ fenceMark ++ [] ++ body ++ fenceMark ++ u)
        = some (pyStrip body) := by
      simp only [fenceExtract, hff, hciB, Bool.false_and, if_false, Bool.false_eq_true,
        List.nil_append, hcontent]
    simp only [extract_sql, hfe]

/-- C3: a raw completion containing a complete fenced code block — written
`p ++ fence ++ tag ++ body ++ fence ++ u`, with the prose `p` and the block
body free of backquote characters and the tag either the (case-insensitive)
SQL tag or absent (and the body then not beginning with the tag letters) —
extracts to the trimmed inner content of the fence, regardless of the prose
before or after the fence; the trailing-SELECT rule and the identity fallback
are not applied. -/
theorem C3_fenced_block_extraction (p tag body u : List Char)
    (hp : bq ∉ p) (hb : bq ∉ body)
    (htag : strUpper tag = ['S', 'Q', 'L'] ∨ tag = [])
    (htag2 : tag = [] → ciBegins sqlWord body = false) :
    extract_sql (p ++ fenceMark ++ tag ++ body ++ fenceMark ++ u) = pyStrip body :=
  fence_core p tag body u hp hb htag htag2

theorem C3_fenced_block_extraction_witness :
    extract_sql ("Here is the query:\n".toList ++ fenceMark ++ "sql".toList ++
        "\nSELECT A FROM B;\n".toList ++ fenceMark ++ "\nLet me know!".toList) =
      pyStrip "\nSELECT A FROM B;\n".toList :=
  C3_fenced_block_extraction _ _ _ _ (by decide) (by decide) (Or.inl (by decide))
    (fun h => absurd h (by decide))

/-- C9: when a raw completion contains two or more complete fenced code
blocks, the extractor returns the trimmed inner content of the first
(leftmost) fence only; the content of the later fence is discarded. -/
theorem C9_first_fence_wins (p b1 m b2 t : List Char)
    (hp : bq ∉ p) (hb : bq ∉ b1) (hsql : ciBegins sqlWord b1 = false) :
    extract_sql (p ++ fenceMark ++ b1 ++ fenceMark ++ m ++ fenceMark ++ b2 ++ fenceMark ++ t)
      = pyStrip b1 := by
  have h := fence_core p [] b1 (m ++ fenceMark ++ b2 ++ fenceMark ++ t) hp hb
    (Or.inr rfl) (fun _ => hsql)
  simpa [List.append_assoc] using h

theorem C9_first_fence_wins_witness :
    extract_sql ("First:\n".toList ++ fenceMark ++ " SELECT A FROM B ".toList ++ fenceMark ++
        "\nSecond:\n".toList ++ fenceMark ++ " DROP TABLE D ".toList ++ fenceMark ++
        " bye".toList)
      = pyStrip " SELECT A FROM B ".toList :=
  C9_first_fence_wins _ _ _ _ _ (by decide) (by decide) (by decide)

/-! ### Trailing-SELECT lemmas -/

theorem strUpper_select_length {m : List Char} (h : strUpper m = selectWord) :
    m.length = 6 := by
  have := congrArg List.length h
  simpa [strUpper, selectWord] using this

theorem isPySpace_cases {c : Char} (h : isPySpace c = true) :
    c = ' ' ∨ c = '\t' ∨ c = '\n' ∨ c = '\r' ∨ c = '\x0b' ∨ c = '\x0c' := by
  have h2 : ((((c = ' ' ∨ c = '\t') ∨ c = '\n') ∨ c = '\r') ∨ c = '\x0b') ∨ c = '\x0c' := by
    simpa [isPySpace] using h
  tauto

theorem toUpper_space_fix {c : Char} (h : isPySpace c = true) : Char.toUpper c = c := by
  rcases isPySpace_cases h with rfl | rfl | rfl | rfl | rfl | rfl <;> decide

theorem select_mem_not_space {m : List Char} (h : strUpper m = selectWord)
    {c : Char} (hc : c ∈ m) (hs : isPySpace c = true) : False := by
  have hmem : Char.toUpper c ∈ selectWord := by
    rw [← h, strUpper]
    exact List.mem_map_of_mem Char.toUpper hc
  rw [toUpper_space_fix hs] at hmem
  have hforall : ∀ d ∈ selectWord, isPySpace d = false := by decide
  rw [hforall c hmem] at hs
  exact absurd hs (by simp)

theorem selectHere_iff (s : List Char) :
    selectHere s = true ↔
      ∃ m w r, s = m ++ w :: r ∧ strUpper m = selectWord ∧ isPySpace w = true := by
  constructor
  · intro h
    rw [selectHere, Bool.and_eq_true] at h
    obtain ⟨h1, h2⟩ := h
    rw [ciBegins] at h1
    have hsel : strUpper selectWord = selectWord := by decide
    rw [hsel] at h1
    obtain ⟨t, ht⟩ := (beginsWith_iff ..).mp h1
    have hm : strUpper (s.take 6) = selectWord := by
      have hmt : strUpper (s.take 6) = (strUpper s).take 6 := by
        rw [strUpper, strUpper, List.map_take]
      rw [hmt, ht]
      have h6 : (selectWord ++ t).take 6 = selectWord := by
        have hl : selectWord.length = 6 := by decide
        rw [← hl, List.take_left]
      exact h6
    cases hd : s.drop 6 with
    | nil =>
      rw [hd] at h2
      simp at h2
    | cons w r =>
      rw [hd] at h2
      exact ⟨s.take 6, w, r, by rw [← hd]; exact (List.take_append_drop 6 s).symm, hm, h2⟩
  · rintro ⟨m, w, r, rfl, hm, hw⟩
    rw [selectHere, Bool.and_eq_true]
    refine ⟨?_, ?_⟩
    · rw [ciBegins]
      have hsel : strUpper selectWord = selectWord := by decide
      rw [hsel, strUpper_append, hm]
      exact beginsWith_append_self ..
    · have hlen : m.length = 6 := strUpper_select_length hm
      have hdr : (m ++ w :: r).drop 6 = w :: r := by
        rw [← hlen]
        exact List.drop_left ..
      rw [hdr]
      exact hw

theorem findSelect_some_of_here {s : List Char} (h : selectHere s = true) :
    findSelect s = some s := by
  cases s with
  | nil => exact absurd h (by decide)
  | cons c cs => rw [findSelect, if_pos h]

theorem selectHere_concat_contra (q m : List Char) (w : Char) (r : List Char)
    (hq : q ≠ []) (hm : strUpper m = selectWord)
    (hfirst : ¬ ∃ l m2 w2 r2, q = l ++ m2 ++ w2 :: r2 ∧ strUpper m2 = selectWord ∧
      isPySpace w2 = true)
    (hsh : selectHere (q ++ m ++ w :: r) = true) : False := by
  obtain ⟨m2, w2, r2, heq, hm2, hw2⟩ := (selectHere_iff ..).mp hsh
  have hlm : m.length = 6 := strUpper_select_length hm
  have hlm2 : m2.length = 6 := strUpper_select_length hm2
  rw [List.append_assoc] at heq
  rcases List.append_eq_append_iff.mp heq with ⟨a, ha1, ha2⟩ | ⟨c2, hc1, hc2⟩
  · rcases List.append_eq_append_iff.mp ha2 with ⟨b, hb1, hb2⟩ | ⟨d, hd1, hd2⟩
    · have hlen := congrArg List.length ha1
      rw [hlm2, List.length_append] at hlen
      have hlena := congrArg List.length hb1
      rw [List.length_append, hlm] at hlena
      have hq0 : q.length = 0 := by omega
      exact hq (List.length_eq_zero.mp hq0)
    · cases d with
      | nil =>
        have hlen := congrArg List.length ha1
        rw [hlm2, List.length_append] at hlen
        have hlena := congrArg List.length hd1
        rw [List.length_append, hlm, List.length_nil] at hlena
        have hq0 : q.length = 0 := by omega
        exact hq (List.length_eq_zero.mp hq0)
      | cons y d2 =>
        rw [List.cons_append] at hd2
        injection hd2 with hy hrest
        apply select_mem_not_space hm ?_ hw2
        rw [hy, hd1]
        exact List.mem_append_right a (List.mem_cons_self y d2)
  · cases c2 with
    | nil =>
      rw [List.nil_append] at hc2
      cases m with
      | nil => simp [strUpper, selectWord] at hm
      | cons m0 mr =>
        rw [List.cons_append] at hc2
        injection hc2 with h0 h1
        apply select_mem_not_space hm ?_ hw2
        rw [h0]
        exact List.mem_cons_self m0 mr
    | cons z c2t =>
      rw [List.cons_append] at hc2
      injection hc2 with hz hrest
      apply hfirst
      refine ⟨[], m2, w2, c2t, ?_, hm2, hw2⟩
      rw [hc1, hz]
      simp

theorem findSelect_concat (p m : List Char) (w : Char) (r : List Char)
    (hm : strUpper m = selectWord) (hw : isPySpace w = true)
    (hfirst : ¬ ∃ l m2 w2 r2, p = l ++ m2 ++ w2 :: r2 ∧ strUpper m2 = selectWord ∧
      isPySpace w2 = true) :
    findSelect (p ++ m ++ w :: r) = some (m ++ w :: r) := by
  induction p with
  | nil =>
    simp only [List.nil_append]
    exact findSelect_some_of_here ((selectHere_iff ..).mpr ⟨m, w, r, rfl, hm, hw⟩)
  | cons c p2 ih =>
    rw [List.cons_append, List.cons_append, findSelect]
    have hfalse : selectHere (c :: (p2 ++ m ++ w :: r)) = false := by
      cases hsh : selectHere (c :: (p2 ++ m ++ w :: r)) with
      | false => rfl
      | true =>
        exact (selectHere_concat_contra (c :: p2) m w r (by simp) hm hfirst
          (by simpa using hsh)).elim
    rw [hfalse]
    simp only [Bool.false_eq_true, if_false]
    refine ih fun hex => hfirst ?_
    obtain ⟨l, m2, w2, r2, heq, h1, h2⟩ := hex
    exact ⟨c :: l, m2, w2, r2, by rw [heq]; simp, h1, h2⟩

theorem findFence_eq_none (s : List Char)
    (h : ¬ ∃ l mid t, s = l ++ fenceMark ++ mid ++ fenceMark ++ t) :
    findFence s = none := by
  induction s with
  | nil => rfl
  | cons c cs ih =>
    rw [findFence]
    have hcond : (beginsWith fenceMark (c :: cs) && hasSub fenceMark ((c :: cs).drop 3)) = false := by
      cases hbw : beginsWith fenceMark (c :: cs) with
      | false => simp
      | true =>
        cases hhs : hasSub fenceMark ((c :: cs).drop 3) with
        | false => simp
        | true =>
          exfalso
          obtain ⟨x, hx⟩ := (beginsWith_iff ..).mp hbw
          have hdx : (c :: cs).drop 3 = x := by
            have h3 : fenceMark.length = 3 := rfl
            rw [hx, ← h3, List.drop_left]
          rw [hdx] at hhs
          obtain ⟨l2, t2, hlt⟩ := (hasSub_iff ..).mp hhs
          exact h ⟨[], l2, t2, by rw [hx, hlt]; simp⟩
    rw [hcond]
    simp only [Bool.false_eq_true, if_false]
    refine ih fun hex => h ?_
    obtain ⟨l, mid, t, hx⟩ := hex
    exact ⟨c :: l, mid, t, by rw [hx]; simp⟩

theorem findSelect_eq_none (s : List Char)
    (h : ¬ ∃ l m2 w2 r2, s = l ++ m2 ++ w2 :: r2 ∧ strUpper m2 = selectWord ∧
      isPySpace w2 = true) :
    findSelect s = none := by
  induction s with
  | nil => rfl
  | cons c cs ih =>
    rw [findSelect]
    have hcond : selectHere (c :: cs) = false := by
      cases hsh : selectHere (c :: cs) with
      | false => rfl
      | true =>
        obtain ⟨m2, w2, r2, heq, h1, h2⟩ := (selectHere_iff ..).mp hsh
        exact (h ⟨[], m2, w2, r2, by rw [heq]; simp, h1, h2⟩).elim
    rw [hcond]
    simp only [Bool.false_eq_true, if_false]
    refine ih fun hex => h ?_
    obtain ⟨l, m2, w2, r2, heq, h1, h2⟩ := hex
    exact ⟨c :: l, m2, w2, r2, by rw [heq]; simp, h1, h2⟩

theorem not_select_decomp_of_findSelect_none (s : List Char) (hn : findSelect s = none) :
    ¬ ∃ l m2 w2 r2, s = l ++ m2 ++ w2 :: r2 ∧ strUpper m2 = selectWord ∧
      isPySpace w2 = true := by
  rintro ⟨l, m2, w2, r2, rfl, h1, h2⟩
  induction l with
  | nil =>
    simp only [List.nil_append] at hn
    have hs := findSelect_some_of_here ((selectHere_iff ..).mpr ⟨m2, w2, r2, rfl, h1, h2⟩)
    rw [hs] at hn
    exact Option.noConfusion hn
  | cons c l2 ih =>
    rw [List.cons_append, List.cons_append, findSelect] at hn
    split at hn
    · exact Option.noConfusion hn
    · exact ih hn

theorem no_fence_decomp_of_not_mem (s : List Char) (hs : bq ∉ s) :
    ¬ ∃ l mid t, s = l ++ fenceMark ++ mid ++ fenceMark ++ t := by
  rintro ⟨l, mid, t, rfl⟩
  apply hs
  simp [fenceMark]

theorem select_core (p m : List Char) (w : Char) (r : List Char)
    (hnofence : ¬ ∃ l mid t, p ++ m ++ w :: r = l ++ fenceMark ++ mid ++ fenceMark ++ t)
    (hm : strUpper m = selectWord) (hw : isPySpace w = true)
    (hfirst : ¬ ∃ l m2 w2 r2, p = l ++ m2 ++ w2 :: r2 ∧ strUpper m2 = selectWord ∧
      isPySpace w2 = true) :
    extract_sql (p ++ m ++ w :: r) = pyStrip (m ++ w :: r) := by
  have hff : findFence (p ++ m ++ w :: r) = none := findFence_eq_none _ hnofence
  have hfs := findSelect_concat p m w r hm hw hfirst
  simp only [extract_sql, fenceExtract, hff, hfs]

/-- C4: a raw completion with no complete fenced code block that ends in a
SELECT clause — written `p ++ m ++ w :: r` with `m` a case-insensitive
spelling of SELECT followed by a whitespace character `w`, and no earlier
SELECT-plus-whitespace occurrence inside the prose `p` — extracts to that
trailing clause (everything from the SELECT to the end of the text),
trimmed. -/
theorem C4_trailing_select_clause (p m : List Char) (w : Char) (r : List Char)
    (hnofence : ¬ ∃ l mid t, p ++ m ++ w :: r = l ++ fenceMark ++ mid ++ fenceMark ++ t)
    (hm : strUpper m = selectWord) (hw : isPySpace w = true)
    (hfirst : ¬ ∃ l m2 w2 r2, p = l ++ m2 ++ w2 :: r2 ∧ strUpper m2 = selectWord ∧
      isPySpace w2 = true) :
    extract_sql (p ++ m ++ w :: r) = pyStrip (m ++ w :: r) :=
  select_core p m w r hnofence hm hw hfirst

theorem C4_trailing_select_clause_witness :
    extract_sql ("Sure thing.\n".toList ++ "SELECT".toList ++ ' ' :: "A FROM B".toList) =
      pyStrip ("SELECT".toList ++ ' ' :: "A FROM B".toList) :=
  C4_trailing_select_clause _ _ _ _
    (no_fence_decomp_of_not_mem _ (by decide)) (by decide) (by decide)
    (not_select_decomp_of_findSelect_none _ (by decide))

/-- C5: a raw completion containing neither a complete fenced code block nor
any case-insensitive SELECT-followed-by-whitespace occurrence extracts to the
whole input trimmed — the identity fallback, reached only after the two
higher-priority rules have failed. -/
theorem C5_identity_fallback (s : List Char)
    (hnofence : ¬ ∃ l mid t, s = l ++ fenceMark ++ mid ++ fenceMark ++ t)
    (hnosel : ¬ ∃ l m2 w2 r2, s = l ++ m2 ++ w2 :: r2 ∧ strUpper m2 = selectWord ∧
      isPySpace w2 = true) :
    extract_sql s = pyStrip s := by
  have hff : findFence s = none := findFence_eq_none s hnofence
  have hfs : findSelect s = none := findSelect_eq_none s hnosel
  simp only [extract_sql, fenceExtract, hff, hfs]

theorem C5_identity_fallback_witness :
    extract_sql " I am unable to write a query for that. ".toList =
      pyStrip " I am unable to write a query for that. ".toList :=
  C5_identity_fallback _
    (no_fence_decomp_of_not_mem _ (by decide))
    (not_select_decomp_of_findSelect_none _ (by decide))

/-- C10: in the trailing-SELECT rule the captured statement starts at the
first case-insensitive SELECT-followed-by-whitespace occurrence and extends to
the last non-whitespace character of the input: for a fence-free completion
`p ++ m ++ w :: (mid ++ z :: tws)` — prose `p` with no earlier SELECT, SELECT
spelling `m`, whitespace `w`, arbitrary text `mid` (which may contain a
semicolon followed by non-SQL prose), last non-whitespace character `z`, and
trailing whitespace `tws` — the extracted SQL is `m ++ w :: (mid ++ [z])`,
i.e. everything from the SELECT through `z` inclusive. -/
theorem C10_select_spans_to_last_nonspace (p m : List Char) (w : Char) (mid : List Char)
    (z : Char) (tws : List Char)
    (hnofence : ¬ ∃ l mm t, p ++ m ++ w :: (mid ++ z :: tws) =
      l ++ fenceMark ++ mm ++ fenceMark ++ t)
    (hm : strUpper m = selectWord) (hw : isPySpace w = true)
    (hz : isPySpace z = false) (htws : ∀ c ∈ tws, isPySpace c = true)
    (hfirst : ¬ ∃ l m2 w2 r2, p = l ++ m2 ++ w2 :: r2 ∧ strUpper m2 = selectWord ∧
      isPySpace w2 = true) :
    extract_sql (p ++ m ++ w :: (mid ++ z :: tws)) = m ++ w :: (mid ++ [z]) := by
  rw [select_core p m w (mid ++ z :: tws) hnofence hm hw hfirst]
  obtain ⟨m0, mr, rfl⟩ : ∃ m0 mr, m = m0 :: mr := by
    cases m with
    | nil => simp [strUpper, selectWord] at hm
    | cons a b => exact ⟨a, b, rfl⟩
  have hm0 : isPySpace m0 = false := by
    cases hh : isPySpace m0 with
    | false => rfl
    | true => exact (select_mem_not_space hm (List.mem_cons_self ..) hh).elim
  rw [pyStrip, List.cons_append, dropWhile_cons_of_neg _ hm0]
  have hrev : (m0 :: (mr ++ w :: (mid ++ z :: tws))).reverse
      = tws.reverse ++ z :: (mid.reverse ++ w :: (mr.reverse ++ [m0])) := by
    simp
  rw [hrev,
    dropWhile_append_of_all (z :: (mid.reverse ++ w :: (mr.reverse ++ [m0])))
      (fun c hc => htws c (List.mem_reverse.mp hc)),
    dropWhile_cons_of_neg _ hz]
  simp

theorem C10_select_spans_to_last_nonspace_witness :
    extract_sql ("Answer below\n".toList ++ "select".toList ++ '\n' ::
        ("A FROM B; hope this helps".toList ++ '!' :: "  \n".toList)) =
      "select".toList ++ '\n' :: ("A FROM B; hope this helps".toList ++ ['!']) :=
  C10_select_spans_to_last_nonspace _ _ _ _ _ _
    (no_fence_decomp_of_not_mem _ (by decide)) (by decide) (by decide) (by decide)
    (by decide) (not_select_decomp_of_findSelect_none _ (by decide))

/-! ### Safety-gate claims -/

/-- C1: the safety-gate decision is exactly a case-insensitive substring test
over the fixed token set: for every extracted SQL string, the gate disallows
it iff its uppercase form contains some forbidden token as a substring; in
particular the documented false positive "SELECT UPDATED_AT FROM LOG" is
rejected, because UPDATE is a substring of UPDATED_AT. -/
theorem C1_gate_substring_characterization :
    (∀ sql : List Char, gateAllowed sql = false ↔
      ∃ tok ∈ forbiddenTokens, ∃ l r, strUpper sql = l ++ tok ++ r) ∧
    gateAllowed "SELECT UPDATED_AT FROM LOG".toList = false := by
  constructor
  · intro sql
    rw [gateAllowed, Bool.not_eq_false', forbidden, List.any_eq_true]
    constructor
    · rintro ⟨tok, htok, hsub⟩
      exact ⟨tok, htok, (hasSub_iff ..).mp hsub⟩
    · rintro ⟨tok, htok, hex⟩
      exact ⟨tok, htok, (hasSub_iff ..).mpr hex⟩
  · decide

/-- C6: the gate's CREATE token carries a trailing space: every statement
whose uppercase form contains none of INSERT, UPDATE, DELETE, DROP, ALTER and
no occurrence of CREATE followed immediately by a space character — for
example CREATE at the absolute end of the string, or CREATE occurring only
inside CREATED — is allowed by the gate. -/
theorem C6_create_requires_trailing_space (sql : List Char)
    (hothers : ∀ tok ∈ ["INSERT".toList, "UPDATE".toList, "DELETE".toList,
      "DROP".toList, "ALTER".toList], ¬ ∃ l r, strUpper sql = l ++ tok ++ r)
    (hcreate : ∀ l r, strUpper sql ≠ l ++ "CREATE".toList ++ ' ' :: r) :
    gateAllowed sql = true := by
  rw [gateAllowed, Bool.not_eq_true', forbidden, List.any_eq_false]
  intro tok htok
  have hfalse : ∀ pat, (¬ ∃ l r, strUpper sql = l ++ pat ++ r) →
      ¬ hasSub pat (strUpper sql) = true :=
    fun pat hno hh => hno ((hasSub_iff ..).mp hh)
  rcases (show tok = "INSERT".toList ∨ tok = "UPDATE".toList ∨ tok = "DELETE".toList ∨
      tok = "DROP".toList ∨ tok = "ALTER".toList ∨ tok = "CREATE ".toList by
    simpa [forbiddenTokens] using htok) with rfl | rfl | rfl | rfl | rfl | rfl
  · exact hfalse _ (hothers "INSERT".toList (by decide))
  · exact hfalse _ (hothers "UPDATE".toList (by decide))
  · exact hfalse _ (hothers "DELETE".toList (by decide))
  · exact hfalse _ (hothers "DROP".toList (by decide))
  · exact hfalse _ (hothers "ALTER".toList (by decide))
  · refine hfalse _ ?_
    rintro ⟨l, r, hlr⟩
    apply hcreate l r
    rw [hlr]
    have hsp : ("CREATE ".toList : List Char) = "CREATE".toList ++ [' '] := by decide
    rw [hsp]
    simp

theorem C6_create_requires_trailing_space_witness :
    gateAllowed "SELECT NAME FROM CREATED ORDER BY CREATE".toList = true := by
  apply C6_create_requires_trailing_space
  · intro tok htok
    have hl : ∀ pat s : List Char, hasSub pat s = false → ¬ ∃ l r, s = l ++ pat ++ r := by
      intro pat s hf hex
      rw [← hasSub_iff] at hex
      rw [hf] at hex
      exact absurd hex (by simp)
    fin_cases htok <;> exact hl _ _ (by decide)
  · intro l r heq
    have hsub : hasSub "CREATE ".toList
        (strUpper "SELECT NAME FROM CREATED ORDER BY CREATE".toList) = true := by
      refine (hasSub_iff ..).mpr ⟨l, r, ?_⟩
      rw [heq]
      have hsp : ("CREATE ".toList : List Char) = "CREATE".toList ++ [' '] := by decide
      rw [hsp]
      simp
    exact absurd hsub (by decide)

/-! ### Pipeline claims -/

/-- C2: a statement is submitted to the warehouse execution path only when
the safety gate allowed it: every submission that ends in the executed state
carries gate-allowed SQL, and when the gate finds a forbidden token the
submission terminates rejected with the abort error message, never reaching
the execution call. -/
theorem C2_gate_guards_execution (q sd : List Char) (complete : List Char → List Char) :
    (∀ sql, runSubmission q sd complete = SubmissionOutcome.executed sql →
      gateAllowed sql = true) ∧
    (gateAllowed (generate_sql q sd complete) = false →
      runSubmission q sd complete = SubmissionOutcome.rejected writeAbortMsg) := by
  constructor
  · intro sql hrun
    simp only [runSubmission] at hrun
    split at hrun
    · exact SubmissionOutcome.noConfusion hrun
    · rename_i hforb
      injection hrun with hsql
      have hf : forbidden (generate_sql q sd complete) = false := by
        simpa using hforb
      rw [← hsql, gateAllowed, hf]
      rfl
  · intro hgate
    have hforb : forbidden (generate_sql q sd complete) = true := by
      rw [gateAllowed] at hgate
      simpa using hgate
    simp only [runSubmission]
    rw [if_pos hforb]

theorem C2_gate_guards_execution_witness :
    gateAllowed "SELECT 1".toList = true ∧
      runSubmission "how many rows".toList [] (fun _ => "DROP TABLE X;".toList) =
        SubmissionOutcome.rejected writeAbortMsg :=
  ⟨(C2_gate_guards_execution "count the rows".toList []
      (fun _ => "SELECT 1".toList)).1 "SELECT 1".toList (by decide),
    (C2_gate_guards_execution "how many rows".toList []
      (fun _ => "DROP TABLE X;".toList)).2 (by decide)⟩

/-- C7: the prompt builder's quote escaping is a lossless doubling: for every
input string containing single-quote characters, escaping (doubling each
quote) followed by reversing the doubling yields the original string. -/
theorem C7_escape_roundtrip (s : List Char) (_h : '\'' ∈ s) :
    unescapeQuotes (escapeQuotes s) = s :=
  escape_roundtrip s

theorem C7_escape_roundtrip_witness :
    '\'' ∈ ['d', 'o', 'n', '\'', 't'] ∧
      unescapeQuotes (escapeQuotes ['d', 'o', 'n', '\'', 't']) = ['d', 'o', 'n', '\'', 't'] :=
  ⟨by decide, C7_escape_roundtrip ['d', 'o', 'n', '\'', 't'] (by decide)⟩

/-- C8: when the schema metadata fetch fails, the failure is not propagated:
the downstream stages receive an empty table list and an empty schema
description, and for a nonempty user query the submission still proceeds
through generation against the empty schema instead of halting. -/
theorem C8_schema_fetch_degrades (e q : List Char) (complete : List Char → List Char)
    (hq : q ≠ []) :
    appRun (Except.error e) q complete = ([], [], some (runSubmission q [] complete)) := by
  simp only [appRun, appSchemaState]
  rw [if_neg hq]

theorem C8_schema_fetch_degrades_witness :
    appRun (Except.error "connection refused".toList) "how many rows".toList
        (fun _ => "SELECT COUNT(1) FROM T".toList) =
      ([], [], some (runSubmission "how many rows".toList []
        (fun _ => "SELECT COUNT(1) FROM T".toList))) :=
  C8_schema_fetch_degrades _ _ _ (by decide)

example : extract_sql "```sql\nSELECT * FROM T;\n```".toList = "SELECT * FROM T;".toList := by decide
example : extract_sql "Sure! SELECT A FROM B".toList = "SELECT A FROM B".toList := by decide
example : extract_sql "DROP TABLE X;".toList = "DROP TABLE X;".toList := by decide
example : gateAllowed "SELECT UPDATED_AT FROM LOG".toList = false := by decide
example : gateAllowed "SELECT A FROM CREATED".toList = true := by decide
example : gateAllowed "CREATE TABLE X (A INT)".toList = false := by decide
example : extract_sql "```sqlite```".toList = "ite".toList := by decide
example : extract_sql "pre ``` a ``` mid ``` b ```".toList = "a".toList := by decide
